import Mathlib

/-!
Verification development for the scrum-poker host core
(src-tauri/src: room.rs, state.rs, api.rs, relay.rs).

The Rust data model and the operations of the room store, the session
gateway and the relay client are shallowly embedded as executable Lean
definitions.  Concurrent maps (DashMap) are modelled as association lists
with the usual first-match lookup; random identifiers (UUID v4 values and
the 64-bit hash drawn from a fresh UUID) enter as explicit parameters, so
that every operation is a pure function of the store and of the random
values supplied to it.  Message channels are modelled by recording the
messages sent on them.
-/

set_option maxRecDepth 4000

namespace ScrumPoker

/-! ## Data model (room.rs) -/

/-- Jira ticket information (room.rs, struct JiraTicket). -/
structure JiraTicket where
  key : String
  summary : String
  description : Option String
  issue_type : Option String
  status : Option String
  url : String
deriving DecidableEq, Repr

/-- A participant in a room (room.rs, struct Participant). -/
structure Participant where
  id : String
  name : String
  vote : Option String
  is_host : Bool
deriving DecidableEq, Repr

/-- A scrum poker room (room.rs, struct Room). -/
structure Room where
  id : String
  name : String
  participants : List Participant
  votes_revealed : Bool
  created_at : Nat
  invite_code : String
  current_ticket : Option JiraTicket
deriving DecidableEq, Repr

/-! ## String helpers

Rust's string primitives used by the code are re-implemented structurally
so that they evaluate inside the kernel:
`replaceAll` models `str::replace` (replace every non-overlapping
occurrence of the pattern, scanning left to right), and `splitChars`
models splitting on a separator character. -/

/-- One pass of `str::replace` over the character list, with enough fuel
to consume the whole input (the pattern is nonempty, so each step
consumes at least one character). -/
def replaceCharsFuel (pat repl : List Char) : Nat → List Char → List Char
  | 0, s => s
  | _ + 1, [] => []
  | fuel + 1, c :: cs =>
      if pat.isPrefixOf (c :: cs) then
        repl ++ replaceCharsFuel pat repl fuel ((c :: cs).drop pat.length)
      else c :: replaceCharsFuel pat repl fuel cs

/-- Model of Rust `str::replace s pat repl`: replaces every
non-overlapping occurrence of `pat` in `s` by `repl`, left to right. -/
def replaceAll (s pat repl : String) : String :=
  if pat.isEmpty then s
  else String.mk (replaceCharsFuel pat.data repl.data s.data.length s.data)

/-- Split a character list on a separator character (the groups between
separators, in order). -/
def splitChars (sep : Char) : List Char → List (List Char)
  | [] => [[]]
  | c :: cs =>
      if c = sep then [] :: splitChars sep cs
      else
        match splitChars sep cs with
        | g :: gs => (c :: g) :: gs
        | [] => [[c]]

/-- The space-separated groups of a string. -/
def spaceGroups (s : String) : List String :=
  (splitChars ' ' s.data).map String.mk

/-! ## Invite-code generation (room.rs, generate_invite_code) -/

/-- Rust's format specifier for a number padded with zeros to a minimum
width of 2: the decimal representation, preceded by a zero when it is a
single digit.  (Values of three or more digits are printed in full.) -/
def pad2 (n : Nat) : String :=
  if n < 10 then "0" ++ Nat.repr n else Nat.repr n

/-- room.rs, generate_invite_code: the fresh UUID is hashed to a 64-bit
value (the hash enters here as the parameter `hash`); four bytes of the
hash — the shifts by 24, 16, 8 and 0 bits, each masked with 0xFF — are
formatted with the zero-padding-to-width-2 specifier and joined by single
spaces. -/
def generate_invite_code (hash : Nat) : String :=
  pad2 ((hash / 2 ^ 24) % 256) ++ " " ++ pad2 ((hash / 2 ^ 16) % 256) ++ " " ++
    pad2 ((hash / 2 ^ 8) % 256) ++ " " ++ pad2 (hash % 256)

/-- The four byte values an invite code is formatted from. -/
def inviteBytes (hash : Nat) : List Nat :=
  [(hash / 2 ^ 24) % 256, (hash / 2 ^ 16) % 256, (hash / 2 ^ 8) % 256, hash % 256]

/-- The length of a zero-padded byte group: two digits below 100, three
digits from 100 to 255. -/
theorem pad2_length_of_lt_256 : ∀ n, n < 256 → (pad2 n).length = if n < 100 then 2 else 3 := by
  decide

/-- Padded byte groups never contain a space. -/
theorem pad2_no_space_of_lt_256 : ∀ n, n < 256 → ' ' ∉ (pad2 n).data := by
  decide

/-- Splitting a concatenation at a fresh separator splits at exactly the
separator positions. -/
theorem splitChars_append_cons (sep : Char) (a : List Char) (ha : sep ∉ a) (b : List Char) :
    splitChars sep (a ++ sep :: b) = a :: splitChars sep b := by
  induction a with
  | nil => simp [splitChars]
  | cons c cs ih =>
      have hc : c ≠ sep := by
        intro h; exact ha (by simp [h])
      have hcs : sep ∉ cs := fun h => ha (List.mem_cons_of_mem _ h)
      show splitChars sep (c :: (cs ++ sep :: b)) = (c :: cs) :: splitChars sep b
      simp only [splitChars, if_neg hc]
      rw [ih hcs]

/-- Splitting a separator-free list yields that single group. -/
theorem splitChars_of_not_mem (sep : Char) (a : List Char) (ha : sep ∉ a) :
    splitChars sep a = [a] := by
  induction a with
  | nil => simp [splitChars]
  | cons c cs ih =>
      have hc : c ≠ sep := by
        intro h; exact ha (by simp [h])
      have hcs : sep ∉ cs := fun h => ha (List.mem_cons_of_mem _ h)
      simp only [splitChars, if_neg hc, ih hcs]

/-- The space-separated groups of a generated invite code are exactly the
four zero-padded byte groups. -/
theorem spaceGroups_generate_invite_code (hash : Nat) :
    spaceGroups (generate_invite_code hash) = (inviteBytes hash).map pad2 := by
  have h0 : (hash / 2 ^ 24) % 256 < 256 := Nat.mod_lt _ (by norm_num)
  have h1 : (hash / 2 ^ 16) % 256 < 256 := Nat.mod_lt _ (by norm_num)
  have h2 : (hash / 2 ^ 8) % 256 < 256 := Nat.mod_lt _ (by norm_num)
  have h3 : hash % 256 < 256 := Nat.mod_lt _ (by norm_num)
  have key : (generate_invite_code hash).data =
      (pad2 ((hash / 2 ^ 24) % 256)).data ++ ' ' ::
        ((pad2 ((hash / 2 ^ 16) % 256)).data ++ ' ' ::
          ((pad2 ((hash / 2 ^ 8) % 256)).data ++ ' ' :: (pad2 (hash % 256)).data)) := by
    simp [generate_invite_code, String.data_append]
  rw [spaceGroups, key,
    splitChars_append_cons _ _ (pad2_no_space_of_lt_256 _ h0),
    splitChars_append_cons _ _ (pad2_no_space_of_lt_256 _ h1),
    splitChars_append_cons _ _ (pad2_no_space_of_lt_256 _ h2),
    splitChars_of_not_mem _ _ (pad2_no_space_of_lt_256 _ h3)]
  simp [inviteBytes]

/-- C1: the generated invite code always consists of four space-separated
groups — but they do NOT always have exactly two digits.  At hash value
255 the last byte is 255 and its group is the three-digit string "255". -/
theorem C1_counterexample :
    generate_invite_code 255 = "00 00 00 255" ∧
      spaceGroups (generate_invite_code 255) = ["00", "00", "00", "255"] ∧
      ¬ (∀ g ∈ spaceGroups (generate_invite_code 255), g.length = 2) := by
  refine ⟨by decide, by decide, ?_⟩
  intro h
  exact absurd (h "255" (by decide)) (by decide)

/-- C1 (amended): every generated invite code is four space-separated
groups, the zero-padded decimal values of the four bytes of the hash;
each group has at least two and at most three digits, and exactly two
digits precisely when the byte value is below 100 (zero-padding gives a
minimum width of two, not an exact width). -/
theorem C1_invite_code_format (hash : Nat) :
    spaceGroups (generate_invite_code hash) = (inviteBytes hash).map pad2 ∧
      (∀ b ∈ inviteBytes hash, b < 256) ∧
      (∀ g ∈ spaceGroups (generate_invite_code hash), 2 ≤ g.length ∧ g.length ≤ 3) ∧
      (∀ b ∈ inviteBytes hash, ((pad2 b).length = 2 ↔ b < 100)) := by
  have hbytes : ∀ b ∈ inviteBytes hash, b < 256 := by
    intro b hb
    simp only [inviteBytes, List.mem_cons, List.not_mem_nil, or_false] at hb
    rcases hb with h | h | h | h <;> subst h <;> exact Nat.mod_lt _ (by norm_num)
  refine ⟨spaceGroups_generate_invite_code hash, hbytes, ?_, ?_⟩
  · intro g hg
    rw [spaceGroups_generate_invite_code hash] at hg
    rcases List.mem_map.mp hg with ⟨b, hb, rfl⟩
    have := pad2_length_of_lt_256 b (hbytes b hb)
    by_cases hlt : b < 100 <;> simp [hlt] at this <;> omega
  · intro b hb
    have := pad2_length_of_lt_256 b (hbytes b hb)
    by_cases hlt : b < 100 <;> simp [hlt] at this <;> omega

/-- C1 (amended) witness: at hash 255 the group "255" is within the
two-to-three digit bound. -/
theorem C1_invite_code_format_witness :
    2 ≤ ("255" : String).length ∧ ("255" : String).length ≤ 3 :=
  (C1_invite_code_format 255).2.2.1 "255" (by decide)

/-! ## Association-list model of DashMap

The store's DashMaps are modelled as association lists.  `lookupKey`
returns the first binding of a key; `insertKey` models DashMap::insert
(replacing any existing binding); `eraseKey` models DashMap::remove;
`updateKey` models mutating a value found through get_mut. -/

/-- First binding of a key in an association list. -/
def lookupKey {α : Type} : List (String × α) → String → Option α
  | [], _ => none
  | p :: ps, k => if p.1 = k then some p.2 else lookupKey ps k

/-- Remove the (first) binding of a key, as DashMap::remove does. -/
def eraseKey {α : Type} : List (String × α) → String → List (String × α)
  | [], _ => []
  | p :: ps, k => if p.1 = k then ps else p :: eraseKey ps k

/-- Insert a binding, replacing any existing binding of the key, as
DashMap::insert does. -/
def insertKey {α : Type} (m : List (String × α)) (k : String) (v : α) : List (String × α) :=
  (k, v) :: eraseKey m k

/-- Mutate the value bound to a key in place (DashMap::get_mut followed
by a field update); absent keys are untouched. -/
def updateKey {α : Type} (m : List (String × α)) (k : String) (f : α → α) : List (String × α) :=
  m.map fun p => if p.1 = k then (p.1, f p.2) else p

theorem lookupKey_nil {α : Type} (k : String) : lookupKey ([] : List (String × α)) k = none := rfl

theorem lookupKey_cons {α : Type} (p : String × α) (ps : List (String × α)) (k : String) :
    lookupKey (p :: ps) k = if p.1 = k then some p.2 else lookupKey ps k := rfl

theorem lookupKey_eq_none_iff {α : Type} (m : List (String × α)) (k : String) :
    lookupKey m k = none ↔ k ∉ m.map Prod.fst := by
  induction m with
  | nil => simp [lookupKey]
  | cons p ps ih =>
      rw [lookupKey_cons, List.map_cons, List.mem_cons]
      by_cases h : p.1 = k
      · simp [h]
      · rw [if_neg h, ih]
        constructor
        · intro hnot hor
          rcases hor with h1 | h2
          · exact h h1.symm
          · exact hnot h2
        · intro hnot hm
          exact hnot (Or.inr hm)

theorem lookupKey_isSome_of_mem {α : Type} {m : List (String × α)} {p : String × α}
    (hp : p ∈ m) : lookupKey m p.1 ≠ none := by
  induction m with
  | nil => cases hp
  | cons q qs ih =>
      rw [lookupKey_cons]
      by_cases h : q.1 = p.1
      · simp [h]
      · rw [if_neg h]
        rcases List.mem_cons.mp hp with heq | hmem
        · exact absurd (congrArg Prod.fst heq).symm h
        · exact ih hmem

theorem mem_of_lookupKey_eq_some {α : Type} {m : List (String × α)} {k : String} {v : α}
    (h : lookupKey m k = some v) : (k, v) ∈ m := by
  induction m with
  | nil => cases h
  | cons p ps ih =>
      rw [lookupKey_cons] at h
      by_cases hk : p.1 = k
      · rw [if_pos hk] at h
        have hp : p = (k, v) := by
          cases p; cases hk; cases Option.some.inj h; rfl
        rw [← hp]
        exact List.mem_cons_self _ _
      · rw [if_neg hk] at h
        exact List.mem_cons_of_mem _ (ih h)

theorem eraseKey_of_lookupKey_eq_none {α : Type} {m : List (String × α)} {k : String}
    (h : lookupKey m k = none) : eraseKey m k = m := by
  induction m with
  | nil => rfl
  | cons p ps ih =>
      rw [lookupKey_cons] at h
      by_cases hk : p.1 = k
      · rw [if_pos hk] at h; cases h
      · rw [if_neg hk] at h
        simp [eraseKey, hk, ih h]

theorem lookupKey_eraseKey_ne {α : Type} (m : List (String × α)) (k k' : String) (hne : k' ≠ k) :
    lookupKey (eraseKey m k) k' = lookupKey m k' := by
  induction m with
  | nil => rfl
  | cons p ps ih =>
      simp only [eraseKey]
      by_cases hk : p.1 = k
      · have hp : ¬ p.1 = k' := by rw [hk]; exact fun h => hne h.symm
        rw [if_pos hk, lookupKey_cons, if_neg hp]
      · rw [if_neg hk, lookupKey_cons, lookupKey_cons, ih]

theorem lookupKey_insertKey_self {α : Type} (m : List (String × α)) (k : String) (v : α) :
    lookupKey (insertKey m k v) k = some v := by
  simp [insertKey, lookupKey]

theorem lookupKey_insertKey_ne {α : Type} (m : List (String × α)) (k k' : String) (v : α)
    (hne : k' ≠ k) : lookupKey (insertKey m k v) k' = lookupKey m k' := by
  have : ¬ k = k' := fun h => hne h.symm
  simp only [insertKey, lookupKey, if_neg this]
  exact lookupKey_eraseKey_ne m k k' hne

theorem insertKey_of_lookupKey_eq_none {α : Type} {m : List (String × α)} {k : String} (v : α)
    (h : lookupKey m k = none) : insertKey m k v = (k, v) :: m := by
  rw [insertKey, eraseKey_of_lookupKey_eq_none h]

theorem updateKey_cons {α : Type} (p : String × α) (ps : List (String × α)) (k : String)
    (f : α → α) :
    updateKey (p :: ps) k f = (if p.1 = k then (p.1, f p.2) else p) :: updateKey ps k f := rfl

theorem lookupKey_updateKey_self {α : Type} (m : List (String × α)) (k : String) (f : α → α) :
    lookupKey (updateKey m k f) k = (lookupKey m k).map f := by
  induction m with
  | nil => rfl
  | cons p ps ih =>
      rw [updateKey_cons]
      by_cases hk : p.1 = k
      · rw [if_pos hk]
        simp [lookupKey_cons, hk]
      · rw [if_neg hk]
        simp [lookupKey_cons, hk, ih]

theorem lookupKey_updateKey_ne {α : Type} (m : List (String × α)) (k k' : String) (f : α → α)
    (hne : k' ≠ k) : lookupKey (updateKey m k f) k' = lookupKey m k' := by
  induction m with
  | nil => rfl
  | cons p ps ih =>
      rw [updateKey_cons]
      by_cases hk : p.1 = k
      · have hp : ¬ p.1 = k' := by rw [hk]; exact fun h => hne h.symm
        rw [if_pos hk]
        simp [lookupKey_cons, hp, ih]
      · rw [if_neg hk]
        simp [lookupKey_cons, ih]

theorem updateKey_of_lookupKey_eq_none {α : Type} {m : List (String × α)} {k : String}
    (f : α → α) (h : lookupKey m k = none) : updateKey m k f = m := by
  induction m with
  | nil => rfl
  | cons p ps ih =>
      rw [lookupKey_cons] at h
      by_cases hk : p.1 = k
      · rw [if_pos hk] at h; cases h
      · rw [if_neg hk] at h
        simp [updateKey, hk] at ih ⊢
        exact ih h

theorem updateKey_keys {α : Type} (m : List (String × α)) (k : String) (f : α → α) :
    (updateKey m k f).map Prod.fst = m.map Prod.fst := by
  induction m with
  | nil => rfl
  | cons p ps ih =>
      by_cases hk : p.1 = k <;> simp [updateKey, hk] at ih ⊢ <;> exact ih

/-- In a map with no repeated keys, updating the key found by a lookup
with a function that fixes the found value leaves the map unchanged. -/
theorem updateKey_eq_self_of_nodup {α : Type} {m : List (String × α)} {k : String} {v : α}
    {f : α → α} (hnodup : (m.map Prod.fst).Nodup) (hlook : lookupKey m k = some v)
    (hfix : f v = v) : updateKey m k f = m := by
  induction m with
  | nil => rfl
  | cons p ps ih =>
      rw [lookupKey_cons] at hlook
      rw [List.map_cons, List.nodup_cons] at hnodup
      by_cases hk : p.1 = k
      · rw [if_pos hk] at hlook
        have hp : p = (k, v) := by
          cases p; cases hk; cases Option.some.inj hlook; rfl
        have hnone : lookupKey ps k = none := by
          rw [lookupKey_eq_none_iff]
          rw [hk] at hnodup
          exact hnodup.1
        rw [updateKey_cons, if_pos hk, updateKey_of_lookupKey_eq_none f hnone, hp]
        simp [hfix]
      · rw [if_neg hk] at hlook
        rw [updateKey_cons, if_neg hk, ih hnodup.2 hlook]

/-- Filtering away the unique binding of a key makes a lookup miss. -/
theorem lookupKey_filter_eq_none {α : Type} {m : List (String × α)} {k : String} {v : α}
    (q : String × α → Bool) (hnodup : (m.map Prod.fst).Nodup) (hlook : lookupKey m k = some v)
    (hq : q (k, v) = false) : lookupKey (m.filter q) k = none := by
  induction m with
  | nil => cases hlook
  | cons p ps ih =>
      rw [lookupKey_cons] at hlook
      rw [List.map_cons, List.nodup_cons] at hnodup
      by_cases hk : p.1 = k
      · rw [if_pos hk] at hlook
        have hp : p = (k, v) := by
          cases p; cases hk; cases Option.some.inj hlook; rfl
        have hnone : lookupKey ps k = none := by
          rw [lookupKey_eq_none_iff]
          rw [hk] at hnodup
          exact hnodup.1
        have htail : lookupKey (ps.filter q) k = none := by
          rw [lookupKey_eq_none_iff]
          intro hmem
          rcases List.mem_map.mp hmem with ⟨r, hr, hrk⟩
          have : r ∈ ps := List.mem_of_mem_filter hr
          rw [hk] at hnodup
          exact hnodup.1 (hrk ▸ List.mem_map_of_mem Prod.fst this)
        rw [List.filter_cons, hp, hq]
        exact htail
      · rw [if_neg hk] at hlook
        rw [List.filter_cons]
        by_cases hqp : q p = true
        · rw [if_pos hqp, lookupKey_cons, if_neg hk]
          exact ih hnodup.2 hlook
        · rw [if_neg hqp]
          exact ih hnodup.2 hlook

/-- Filtering keeps the binding of a key whose value satisfies the
predicate (first bindings are preserved). -/
theorem lookupKey_filter_eq_some {α : Type} {m : List (String × α)} {k : String} {v : α}
    (q : String × α → Bool) (hnodup : (m.map Prod.fst).Nodup) (hlook : lookupKey m k = some v)
    (hq : q (k, v) = true) : lookupKey (m.filter q) k = some v := by
  induction m with
  | nil => cases hlook
  | cons p ps ih =>
      rw [lookupKey_cons] at hlook
      rw [List.map_cons, List.nodup_cons] at hnodup
      by_cases hk : p.1 = k
      · rw [if_pos hk] at hlook
        have hp : p = (k, v) := by
          cases p; cases hk; cases Option.some.inj hlook; rfl
        rw [List.filter_cons, hp, hq]
        simp [lookupKey]
      · rw [if_neg hk] at hlook
        rw [List.filter_cons]
        by_cases hqp : q p = true
        · rw [if_pos hqp, lookupKey_cons, if_neg hk]
          exact ih hnodup.2 hlook
        · rw [if_neg hqp]
          exact ih hnodup.2 hlook

/-! ## Room operations (room.rs, impl Room) -/

/-- room.rs, Room::new.  The fresh UUID for the id and the 64-bit hash
of the fresh UUID used for the invite code enter as parameters, as does
the creation timestamp. -/
def Room.new (id : String) (hash : Nat) (name : String) (now : Nat) : Room :=
  { id := id
    name := name
    participants := []
    votes_revealed := false
    created_at := now
    invite_code := generate_invite_code hash
    current_ticket := none }

/-- room.rs, Room::add_participant: push onto the participant list. -/
def Room.add_participant (room : Room) (participant : Participant) : Room :=
  { room with participants := room.participants ++ [participant] }

/-- room.rs, Room::remove_participant: retain the participants whose id
differs. -/
def Room.remove_participant (room : Room) (participant_id : String) : Room :=
  { room with participants := room.participants.filter fun p => p.id ≠ participant_id }

/-- room.rs, Room::set_vote over the participant list: iter_mut().find
mutates the first participant with the given id, if any. -/
def setVoteInList : List Participant → String → Option String → List Participant
  | [], _, _ => []
  | p :: ps, participant_id, vote =>
      if p.id = participant_id then { p with vote := vote } :: ps
      else p :: setVoteInList ps participant_id vote

/-- room.rs, Room::set_vote. -/
def Room.set_vote (room : Room) (participant_id : String) (vote : Option String) : Room :=
  { room with participants := setVoteInList room.participants participant_id vote }

/-- room.rs, Room::reset_votes. -/
def Room.reset_votes (room : Room) : Room :=
  { room with participants := room.participants.map fun p => { p with vote := none }
              votes_revealed := false }

/-! ## The store (state.rs, struct AppState)

Only the fields the claims touch are modelled: the room index, the
invite-code index and the connection index.  A connection record keeps
the participant id, the bound room id and — in place of the mpsc channel
sender — the list of messages sent on that channel, in order. -/

/-- Messages of the session wire protocol (room.rs, enum WsMessage). -/
inductive WsMessage where
  | join (room_id : String) (name : String)
  | vote (vote : Option String)
  | roomUpdate (room : Room)
  | error (message : String)
  | kicked
  | ping
  | pong
deriving DecidableEq, Repr

/-- state.rs, struct Connection; the channel is modelled by `sent`, the
messages pushed on it in order. -/
structure Connection where
  participant_id : String
  room_id : String
  sent : List WsMessage
deriving DecidableEq, Repr

/-- state.rs, struct AppState (the room index, invite-code index and
connection index; the remaining fields are irrelevant to the claims). -/
structure AppState where
  rooms : List (String × Room)
  invite_codes : List (String × String)
  connections : List (String × Connection)
deriving DecidableEq, Repr

/-- The store at startup (state.rs, AppState::new). -/
def AppState.empty : AppState :=
  { rooms := [], invite_codes := [], connections := [] }

/-- state.rs, AppState::create_room: build the room, insert it in the
room index under its id and its invite code in the invite index. -/
def AppState.create_room (s : AppState) (id : String) (hash : Nat) (name : String)
    (now : Nat) : Room × AppState :=
  let room := Room.new id hash name now
  (room,
    { s with
        rooms := insertKey s.rooms room.id room
        invite_codes := insertKey s.invite_codes room.invite_code room.id })

/-- state.rs, AppState::get_room. -/
def AppState.get_room (s : AppState) (room_id : String) : Option Room :=
  lookupKey s.rooms room_id

/-- state.rs, AppState::get_room_by_invite: consult the invite index,
then the room index. -/
def AppState.get_room_by_invite (s : AppState) (invite_code : String) : Option Room :=
  match lookupKey s.invite_codes invite_code with
  | some room_id => s.get_room room_id
  | none => none

/-- state.rs, AppState::delete_room.  Returns the updated store, the
boolean result, and the participant ids that were sent a Kicked message
(one list entry per message sent). -/
def AppState.delete_room (s : AppState) (room_id : String) :
    AppState × Bool × List String :=
  match lookupKey s.rooms room_id with
  | some room =>
      ({ rooms := eraseKey s.rooms room_id
         invite_codes := eraseKey s.invite_codes room.invite_code
         connections := s.connections.filter fun c => ¬ c.2.room_id = room_id },
       true,
       (s.connections.filter fun c => c.2.room_id = room_id).map Prod.fst)
  | none => (s, false, [])

/-- state.rs, AppState::update_room_from_relay: overwrite the local
room's participant list and votes_revealed with the relay's values (the
unknown-room branch only logs). -/
def AppState.update_room_from_relay (s : AppState) (relay_room : Room) : AppState :=
  { s with
      rooms := updateKey s.rooms relay_room.id fun local_room =>
        { local_room with
            participants := relay_room.participants
            votes_revealed := relay_room.votes_revealed } }

/-- state.rs, AppState::add_participant. -/
def AppState.add_participant (s : AppState) (room_id : String) (participant : Participant) :
    Option String × AppState :=
  match lookupKey s.rooms room_id with
  | some _ =>
      (some participant.id,
       { s with rooms := updateKey s.rooms room_id fun r => r.add_participant participant })
  | none => (none, s)

/-- state.rs, AppState::set_vote. -/
def AppState.set_vote (s : AppState) (room_id participant_id : String)
    (vote : Option String) : AppState :=
  { s with rooms := updateKey s.rooms room_id fun r => r.set_vote participant_id vote }

/-- state.rs, AppState::register_connection. -/
def AppState.register_connection (s : AppState) (participant_id room_id : String) : AppState :=
  { s with
      connections := insertKey s.connections participant_id
        { participant_id := participant_id, room_id := room_id, sent := [] } }

/-! ## Invite lookup with normalization (api.rs, get_room_by_invite) -/

/-- api.rs, get_room_by_invite handler, normalization step: replace every
occurrence of the literal "%20" by a space, then every "-" by a space. -/
def normalizeInvite (invite_code : String) : String :=
  replaceAll (replaceAll invite_code "%20" " ") "-" " "

/-- api.rs, get_room_by_invite handler: normalize, then consult the
store; `some` is the JSON response, `none` the 404. -/
def apiGetRoomByInvite (s : AppState) (invite_code : String) : Option Room :=
  s.get_room_by_invite (normalizeInvite invite_code)

/-- C2: invite lookup replaces "%20" by a space and then "-" by a space,
in that order, before consulting the invite index; in particular the raw,
dash-separated and percent-encoded spellings of "51 58 87 72" all resolve
to the room that invite code is bound to. -/
theorem C2_invite_lookup_normalizes (s : AppState) (rid : String) (room : Room)
    (hcode : room.invite_code = "51 58 87 72")
    (hinv : lookupKey s.invite_codes "51 58 87 72" = some rid)
    (hroom : lookupKey s.rooms rid = some room) :
    apiGetRoomByInvite s "51-58-87-72" = some room ∧
      apiGetRoomByInvite s "51%2058%2087%2072" = some room ∧
      apiGetRoomByInvite s "51 58 87 72" = some room ∧
      ∀ code : String,
        apiGetRoomByInvite s code =
          s.get_room_by_invite (replaceAll (replaceAll code "%20" " ") "-" " ") := by
  have h1 : normalizeInvite "51-58-87-72" = "51 58 87 72" := by decide
  have h2 : normalizeInvite "51%2058%2087%2072" = "51 58 87 72" := by decide
  have h3 : normalizeInvite "51 58 87 72" = "51 58 87 72" := by decide
  have hmain : s.get_room_by_invite "51 58 87 72" = some room := by
    rw [AppState.get_room_by_invite, hinv]
    exact hroom
  refine ⟨?_, ?_, ?_, fun code => rfl⟩
  · rw [apiGetRoomByInvite, h1]; exact hmain
  · rw [apiGetRoomByInvite, h2]; exact hmain
  · rw [apiGetRoomByInvite, h3]; exact hmain

/-- A concrete room bound to the invite code "51 58 87 72". -/
def roomC2 : Room :=
  { id := "room-1"
    name := "Sprint 12"
    participants := []
    votes_revealed := false
    created_at := 0
    invite_code := "51 58 87 72"
    current_ticket := none }

/-- A concrete store holding `roomC2` under its invite code. -/
def stateC2 : AppState :=
  { rooms := [("room-1", roomC2)]
    invite_codes := [("51 58 87 72", "room-1")]
    connections := [] }

/-- C2 witness: the three spellings resolve to the concrete room. -/
theorem C2_invite_lookup_normalizes_witness :
    apiGetRoomByInvite stateC2 "51-58-87-72" = some roomC2 ∧
      apiGetRoomByInvite stateC2 "51%2058%2087%2072" = some roomC2 ∧
      apiGetRoomByInvite stateC2 "51 58 87 72" = some roomC2 ∧
      ∀ code : String,
        apiGetRoomByInvite stateC2 code =
          stateC2.get_room_by_invite (replaceAll (replaceAll code "%20" " ") "-" " ") :=
  C2_invite_lookup_normalizes stateC2 "room-1" roomC2 rfl rfl rfl

/-! ## C8: add_participant on an unknown room -/

/-- C8: add_participant on an unknown room id returns none and leaves the
store — in particular the room index — entirely unchanged (no room is
created); on an existing room it returns the participant's id and appends
the participant to that room's list. -/
theorem C8_add_participant (s : AppState) (room_id : String) (participant : Participant) :
    (lookupKey s.rooms room_id = none →
      s.add_participant room_id participant = (none, s)) ∧
      ∀ room, lookupKey s.rooms room_id = some room →
        (s.add_participant room_id participant).1 = some participant.id ∧
          lookupKey (s.add_participant room_id participant).2.rooms room_id =
            some { room with participants := room.participants ++ [participant] } := by
  constructor
  · intro h
    rw [AppState.add_participant, h]
  · intro room h
    rw [AppState.add_participant, h]
    refine ⟨rfl, ?_⟩
    rw [lookupKey_updateKey_self, h]
    rfl

/-- A concrete participant for witnesses. -/
def participantC8 : Participant :=
  { id := "part-8", name := "Ada", vote := none, is_host := false }

/-- C8 witness: on the empty store the operation returns none and changes
nothing; on a store holding the room it returns the id and appends. -/
theorem C8_add_participant_witness :
    AppState.empty.add_participant "nope" participantC8 = (none, AppState.empty) ∧
      (stateC2.add_participant "room-1" participantC8).1 = some participantC8.id ∧
        lookupKey (stateC2.add_participant "room-1" participantC8).2.rooms "room-1" =
          some { roomC2 with participants := roomC2.participants ++ [participantC8] } :=
  ⟨(C8_add_participant AppState.empty "nope" participantC8).1 rfl,
   (C8_add_participant stateC2 "room-1" participantC8).2 roomC2 rfl⟩

/-! ## C6: merging a relay room update -/

/-- C6: update_room_from_relay replaces exactly the participant list and
votes_revealed flag of the local room with the relay room's id (name, id,
created_at, invite_code and current_ticket come from the local room in
the record update), leaves every other room untouched and the invite and
connection indices unchanged; when the id is unknown locally the store is
unchanged. -/
theorem C6_merge_external_update (s : AppState) (relay_room : Room) :
    (s.update_room_from_relay relay_room).invite_codes = s.invite_codes ∧
      (s.update_room_from_relay relay_room).connections = s.connections ∧
      (∀ local_room, lookupKey s.rooms relay_room.id = some local_room →
        lookupKey (s.update_room_from_relay relay_room).rooms relay_room.id =
          some { local_room with
                   participants := relay_room.participants
                   votes_revealed := relay_room.votes_revealed }) ∧
      (∀ k, k ≠ relay_room.id →
        lookupKey (s.update_room_from_relay relay_room).rooms k = lookupKey s.rooms k) ∧
      (lookupKey s.rooms relay_room.id = none → s.update_room_from_relay relay_room = s) := by
  refine ⟨rfl, rfl, ?_, ?_, ?_⟩
  · intro local_room h
    rw [AppState.update_room_from_relay] at *
    rw [lookupKey_updateKey_self, h]
    rfl
  · intro k hk
    exact lookupKey_updateKey_ne s.rooms relay_room.id k
      (fun local_room =>
        { local_room with
            participants := relay_room.participants
            votes_revealed := relay_room.votes_revealed }) hk
  · intro h
    rw [AppState.update_room_from_relay, updateKey_of_lookupKey_eq_none _ h]

/-- The relay's version of the C2 room: one participant, votes revealed. -/
def relayRoomC6 : Room :=
  { id := "room-1"
    name := "Sprint 12"
    participants := [participantC8]
    votes_revealed := true
    created_at := 7
    invite_code := "99 99 99 99"
    current_ticket := none }

/-- C6 witness: merging into a store that has the room rewrites exactly
participants and votes_revealed; merging into the empty store is the
identity. -/
theorem C6_merge_external_update_witness :
    lookupKey (stateC2.update_room_from_relay relayRoomC6).rooms relayRoomC6.id =
        some { roomC2 with
                 participants := relayRoomC6.participants
                 votes_revealed := relayRoomC6.votes_revealed } ∧
      AppState.empty.update_room_from_relay relayRoomC6 = AppState.empty :=
  ⟨(C6_merge_external_update stateC2 relayRoomC6).2.2.1 roomC2 rfl,
   (C6_merge_external_update AppState.empty relayRoomC6).2.2.2.2 rfl⟩

/-! ## C10: set_vote for an unknown participant -/

/-- set_vote leaves the participant list unchanged when no participant
matches. -/
theorem setVoteInList_of_absent (ps : List Participant) (participant_id : String)
    (vote : Option String) (h : ∀ p ∈ ps, p.id ≠ participant_id) :
    setVoteInList ps participant_id vote = ps := by
  induction ps with
  | nil => rfl
  | cons p ps ih =>
      have hp : ¬ p.id = participant_id := h p (List.mem_cons_self _ _)
      simp only [setVoteInList, if_neg hp]
      rw [ih fun q hq => h q (List.mem_cons_of_mem _ hq)]

/-- Participants whose id does not match survive a set_vote unchanged. -/
theorem mem_setVoteInList_of_ne (ps : List Participant) (participant_id : String)
    (vote : Option String) (p : Participant) (hp : p ∈ ps) (hne : p.id ≠ participant_id) :
    p ∈ setVoteInList ps participant_id vote := by
  induction ps with
  | nil => cases hp
  | cons q qs ih =>
      simp only [setVoteInList]
      by_cases hq : q.id = participant_id
      · rw [if_pos hq]
        rcases List.mem_cons.mp hp with heq | hmem
        · exact absurd (heq ▸ hq) hne
        · exact List.mem_cons_of_mem _ hmem
      · rw [if_neg hq]
        rcases List.mem_cons.mp hp with heq | hmem
        · exact heq ▸ List.mem_cons_self _ _
        · exact List.mem_cons_of_mem _ (ih hmem)

/-- C10: set_vote on an existing room with no matching participant leaves
the room — all of its fields — completely unchanged, and therefore the
whole store unchanged; in general a participant whose id does not match
is untouched, only a matching participant's vote field is updated. -/
theorem C10_set_vote_unknown_participant (s : AppState) (room_id participant_id : String)
    (vote : Option String) (room : Room)
    (hkeys : (s.rooms.map Prod.fst).Nodup)
    (hroom : lookupKey s.rooms room_id = some room)
    (habsent : ∀ p ∈ room.participants, p.id ≠ participant_id) :
    room.set_vote participant_id vote = room ∧
      s.set_vote room_id participant_id vote = s ∧
      ∀ (r : Room) (p : Participant), p ∈ r.participants → p.id ≠ participant_id →
        p ∈ (r.set_vote participant_id vote).participants := by
  have hfix : room.set_vote participant_id vote = room := by
    rw [Room.set_vote, setVoteInList_of_absent _ _ _ habsent]
  refine ⟨hfix, ?_, ?_⟩
  · rw [AppState.set_vote, updateKey_eq_self_of_nodup hkeys hroom hfix]
  · intro r p hp hne
    exact mem_setVoteInList_of_ne _ _ _ p hp hne

/-- C10 witness: voting for the unknown participant id "ghost" in the
concrete one-room store changes nothing. -/
theorem C10_set_vote_unknown_participant_witness :
    roomC2.set_vote "ghost" (some "5") = roomC2 ∧
      stateC2.set_vote "room-1" "ghost" (some "5") = stateC2 ∧
      ∀ (r : Room) (p : Participant), p ∈ r.participants → p.id ≠ "ghost" →
        p ∈ (r.set_vote "ghost" (some "5")).participants :=
  C10_set_vote_unknown_participant stateC2 "room-1" "ghost" (some "5") roomC2
    (by decide) rfl (by decide)

/-! ## C4: delete_room -/

theorem lookupKey_eraseKey_self {α : Type} {m : List (String × α)} (k : String)
    (hnodup : (m.map Prod.fst).Nodup) : lookupKey (eraseKey m k) k = none := by
  induction m with
  | nil => rfl
  | cons p ps ih =>
      rw [List.map_cons, List.nodup_cons] at hnodup
      simp only [eraseKey]
      by_cases hk : p.1 = k
      · rw [if_pos hk, lookupKey_eq_none_iff]
        rw [hk] at hnodup
        exact hnodup.1
      · rw [if_neg hk, lookupKey_cons, if_neg hk]
        exact ih hnodup.2

theorem lookupKey_eq_of_mem_nodup {α : Type} {m : List (String × α)} {k : String} {v : α}
    (hnodup : (m.map Prod.fst).Nodup) (hmem : (k, v) ∈ m) : lookupKey m k = some v := by
  induction m with
  | nil => cases hmem
  | cons p ps ih =>
      rw [List.map_cons, List.nodup_cons] at hnodup
      rcases List.mem_cons.mp hmem with heq | hmem'
      · rw [← heq]
        simp [lookupKey_cons]
      · rw [lookupKey_cons]
        by_cases hk : p.1 = k
        · exfalso
          rw [hk] at hnodup
          exact hnodup.1 (by simpa using List.mem_map_of_mem Prod.fst hmem')
        · rw [if_neg hk]
          exact ih hnodup.2 hmem'

theorem get_room_by_invite_eq_none_of (s : AppState) (code : String)
    (h : lookupKey s.invite_codes code = none) : s.get_room_by_invite code = none := by
  rw [AppState.get_room_by_invite, h]

/-- C4: on a store with no repeated keys, delete_room of an existing room
returns true, removes the room from the room index and its invite code
from the invite index (so get_room and get_room_by_invite miss), sends
exactly one Kicked message to every connection bound to that room and
removes those connection records, and leaves every other connection in
place without a Kicked message; delete_room of an unknown id returns
false and changes nothing. -/
theorem C4_delete_room (s : AppState) (room_id : String)
    (hrooms : (s.rooms.map Prod.fst).Nodup)
    (hinvites : (s.invite_codes.map Prod.fst).Nodup)
    (hconns : (s.connections.map Prod.fst).Nodup) :
    (∀ room, lookupKey s.rooms room_id = some room →
      (s.delete_room room_id).2.1 = true ∧
        lookupKey (s.delete_room room_id).1.rooms room_id = none ∧
        lookupKey (s.delete_room room_id).1.invite_codes room.invite_code = none ∧
        (s.delete_room room_id).1.get_room_by_invite room.invite_code = none ∧
        (∀ pid conn, lookupKey s.connections pid = some conn → conn.room_id = room_id →
          ((s.delete_room room_id).2.2).count pid = 1 ∧
            lookupKey (s.delete_room room_id).1.connections pid = none) ∧
        ∀ pid conn, lookupKey s.connections pid = some conn → ¬ conn.room_id = room_id →
          lookupKey (s.delete_room room_id).1.connections pid = some conn ∧
            pid ∉ (s.delete_room room_id).2.2) ∧
      (lookupKey s.rooms room_id = none → s.delete_room room_id = (s, false, [])) := by
  constructor
  · intro room hroom
    have hdel : s.delete_room room_id =
        ({ rooms := eraseKey s.rooms room_id
           invite_codes := eraseKey s.invite_codes room.invite_code
           connections := s.connections.filter fun c => ¬ c.2.room_id = room_id },
         true,
         (s.connections.filter fun c => c.2.room_id = room_id).map Prod.fst) := by
      rw [AppState.delete_room, hroom]
    rw [hdel]
    refine ⟨rfl, ?_, ?_, ?_, ?_, ?_⟩
    · exact lookupKey_eraseKey_self room_id hrooms
    · exact lookupKey_eraseKey_self room.invite_code hinvites
    · exact get_room_by_invite_eq_none_of _ _ (lookupKey_eraseKey_self room.invite_code hinvites)
    · intro pid conn hlook hbound
      constructor
      · have hmem : (pid, conn) ∈ s.connections := mem_of_lookupKey_eq_some hlook
        have hmemf : (pid, conn) ∈ s.connections.filter fun c => c.2.room_id = room_id :=
          List.mem_filter.mpr ⟨hmem, by simp [hbound]⟩
        have hsub :
            ((s.connections.filter fun c => c.2.room_id = room_id).map Prod.fst).Sublist
              (s.connections.map Prod.fst) :=
          (List.filter_sublist _).map Prod.fst
        have hnd :
            ((s.connections.filter fun c => c.2.room_id = room_id).map Prod.fst).Nodup :=
          List.Nodup.sublist hsub hconns
        exact List.count_eq_one_of_mem hnd (List.mem_map_of_mem Prod.fst hmemf)
      · exact lookupKey_filter_eq_none _ hconns hlook (by simp [hbound])
    · intro pid conn hlook hnb
      constructor
      · exact lookupKey_filter_eq_some _ hconns hlook (by simp [hnb])
      · intro hmem
        rcases List.mem_map.mp hmem with ⟨c, hcf, hck⟩
        have hcm := List.mem_filter.mp hcf
        have hcin : lookupKey s.connections c.1 = some c.2 :=
          lookupKey_eq_of_mem_nodup hconns (by rw [Prod.mk.eta]; exact hcm.1)
        rw [hck, hlook] at hcin
        have hceq : conn = c.2 := Option.some.inj hcin
        exact hnb (by rw [hceq]; simpa using hcm.2)
  · intro h
    rw [AppState.delete_room, h]

/-- A connection bound to the C2 room. -/
def connC4a : Connection := { participant_id := "p-a", room_id := "room-1", sent := [] }

/-- A connection bound to a different room. -/
def connC4b : Connection := { participant_id := "p-b", room_id := "room-2", sent := [] }

/-- A concrete store with the C2 room and two connections. -/
def stateC4 : AppState :=
  { rooms := [("room-1", roomC2)]
    invite_codes := [("51 58 87 72", "room-1")]
    connections := [("p-a", connC4a), ("p-b", connC4b)] }

/-- C4 witness: deleting "room-1" from the concrete store returns true,
removes the room and invite entry, kicks exactly the bound connection,
leaves the other untouched, and a second delete returns false and
changes nothing. -/
theorem C4_delete_room_witness :
    (stateC4.delete_room "room-1").2.1 = true ∧
      lookupKey (stateC4.delete_room "room-1").1.rooms "room-1" = none ∧
      (stateC4.delete_room "room-1").1.get_room_by_invite "51 58 87 72" = none ∧
      ((stateC4.delete_room "room-1").2.2).count "p-a" = 1 ∧
      lookupKey (stateC4.delete_room "room-1").1.connections "p-a" = none ∧
      lookupKey (stateC4.delete_room "room-1").1.connections "p-b" = some connC4b ∧
      "p-b" ∉ (stateC4.delete_room "room-1").2.2 ∧
      (stateC4.delete_room "room-1").1.delete_room "room-1" =
        ((stateC4.delete_room "room-1").1, false, []) := by
  have h := C4_delete_room stateC4 "room-1" (by decide) (by decide) (by decide)
  have ha := h.1 roomC2 rfl
  have hb := ha.2.2.2.2.1 "p-a" connC4a rfl rfl
  have hc := ha.2.2.2.2.2 "p-b" connC4b rfl (by decide)
  have h2 := (C4_delete_room (stateC4.delete_room "room-1").1 "room-1"
      (by decide) (by decide) (by decide)).2 ha.2.1
  exact ⟨ha.1, ha.2.1, ha.2.2.2.1, hb.1, hb.2, hc.1, hc.2, h2⟩

/-! ## C7: the relay client's mirrored room list (relay.rs) -/

/-- relay.rs, RoomCreated handling: push the room onto the mirrored
list. -/
def relayRoomCreated (rooms : List Room) (room : Room) : List Room :=
  rooms ++ [room]

/-- relay.rs, RoomUpdate handling: iter_mut().find locates the first
entry with the update's id and overwrites it; with no match the list is
left as it is. -/
def relayRoomUpdate : List Room → Room → List Room
  | [], _ => []
  | r :: rs, room => if r.id = room.id then room :: rs else r :: relayRoomUpdate rs room

/-- The mirrored entries carrying a given room id, in order. -/
def idEntries (rooms : List Room) (id : String) : List Room :=
  rooms.filter fun r => r.id = id

theorem relayRoomUpdate_length (rs : List Room) (u : Room) :
    (relayRoomUpdate rs u).length = rs.length := by
  induction rs with
  | nil => rfl
  | cons r rs ih =>
      simp only [relayRoomUpdate]
      by_cases h : r.id = u.id
      · rw [if_pos h]
        simp
      · rw [if_neg h]
        simp [ih]

theorem relayRoomUpdate_of_no_match (rs : List Room) (u : Room)
    (h : ∀ r ∈ rs, r.id ≠ u.id) : relayRoomUpdate rs u = rs := by
  induction rs with
  | nil => rfl
  | cons r rs ih =>
      simp only [relayRoomUpdate]
      rw [if_neg (h r (List.mem_cons_self _ _)), ih fun q hq => h q (List.mem_cons_of_mem _ hq)]

/-- An update whose id owns exactly one mirrored entry replaces that
entry and no other. -/
theorem idEntries_relayRoomUpdate (rs : List Room) (u cur : Room) (target : String)
    (hu : u.id = target) (h : idEntries rs target = [cur]) :
    idEntries (relayRoomUpdate rs u) target = [u] := by
  induction rs with
  | nil => cases h
  | cons r rs ih =>
      simp only [relayRoomUpdate]
      by_cases hr : r.id = u.id
      · rw [if_pos hr]
        have hrt : r.id = target := hr.trans hu
        rw [idEntries, List.filter_cons, if_pos (by simp [hrt])] at h
        have htail : idEntries rs target = [] := by
          have := List.cons.inj h
          exact this.2
        rw [idEntries, List.filter_cons, if_pos (by simp [hu])]
        rw [idEntries] at htail
        rw [htail]
      · rw [if_neg hr]
        have hrt : ¬ r.id = target := fun hx => hr (hx.trans hu.symm)
        rw [idEntries, List.filter_cons, if_neg (by simp [hrt])] at h
        rw [idEntries, List.filter_cons, if_neg (by simp [hrt])]
        exact ih h

/-- Folding matching updates keeps exactly one mirrored entry: the last
update applied. -/
theorem idEntries_foldl_relayRoomUpdate (target : String) (updates : List Room) :
    ∀ (rs : List Room) (cur : Room), (∀ u ∈ updates, u.id = target) →
      idEntries rs target = [cur] →
      idEntries (updates.foldl relayRoomUpdate rs) target = [updates.getLastD cur] := by
  induction updates with
  | nil =>
      intro rs cur _ h
      simpa [List.foldl] using h
  | cons u us ih =>
      intro rs cur hall h
      rw [List.foldl_cons, List.getLastD_cons]
      exact ih (relayRoomUpdate rs u) u (fun q hq => hall q (List.mem_cons_of_mem _ hq))
        (idEntries_relayRoomUpdate rs u cur target (hall u (List.mem_cons_self _ _)) h)

/-- C7: a Room-update replaces the first mirrored entry with matching id
in place (the list length never grows) and is dropped when no entry
matches; after Room-created for a fresh id followed by any sequence of
Room-updates for that id, the mirrored list holds exactly one entry for
the id — the last update (or the created room when there is none). -/
theorem C7_relay_room_update (rooms : List Room) (room : Room) (updates : List Room)
    (hfresh : ∀ r ∈ rooms, r.id ≠ room.id)
    (hupd : ∀ u ∈ updates, u.id = room.id) :
    (∀ (rs : List Room) (u : Room), (relayRoomUpdate rs u).length = rs.length) ∧
      (∀ (rs : List Room) (u : Room), (∀ r ∈ rs, r.id ≠ u.id) → relayRoomUpdate rs u = rs) ∧
      idEntries (updates.foldl relayRoomUpdate (relayRoomCreated rooms room)) room.id =
        [updates.getLastD room] := by
  refine ⟨relayRoomUpdate_length, relayRoomUpdate_of_no_match, ?_⟩
  have hbase : idEntries (relayRoomCreated rooms room) room.id = [room] := by
    rw [relayRoomCreated, idEntries, List.filter_append]
    have h1 : rooms.filter (fun r => r.id = room.id) = [] := by
      rw [List.filter_eq_nil_iff]
      intro r hr
      simp [hfresh r hr]
    rw [h1]
    simp
  exact idEntries_foldl_relayRoomUpdate room.id updates _ room hupd hbase

/-- A room as first mirrored by Room-created. -/
def roomC7 : Room :=
  { id := "room-7"
    name := "Sprint 12"
    participants := []
    votes_revealed := false
    created_at := 0
    invite_code := "10 20 30 40"
    current_ticket := none }

/-- First Room-update: one participant. -/
def updC7a : Room := { roomC7 with participants := [participantC8] }

/-- Second Room-update: two participants. -/
def updC7b : Room :=
  { roomC7 with
      participants :=
        [participantC8, { id := "p-c", name := "Bea", vote := some "3", is_host := false }] }

/-- A room whose id matches no mirrored entry. -/
def roomC7x : Room := { roomC7 with id := "room-8" }

/-- C7 witness: Room-created then two Room-updates leave exactly one
mirrored entry, the last update; an update with an unknown id is
dropped. -/
theorem C7_relay_room_update_witness :
    idEntries ([updC7a, updC7b].foldl relayRoomUpdate (relayRoomCreated [] roomC7)) roomC7.id =
        [updC7b] ∧
      relayRoomUpdate [updC7b] roomC7x = [updC7b] := by
  have h := C7_relay_room_update [] roomC7 [updC7a, updC7b] (by decide) (by decide)
  exact ⟨h.2.2, h.2.1 [updC7b] roomC7x (by decide)⟩

/-! ## C9: the session gateway (api.rs, handle_websocket) -/

/-- api.rs, handle_websocket: the per-connection session state — the
participant_id and room_id locals, both none until a successful Join. -/
structure Session where
  participant_id : Option String
  room_id : Option String
deriving DecidableEq, Repr

/-- The outcome of processing one parsed inbound frame: the store
afterwards, the session state afterwards, the messages the handler
enqueued on this connection's own channel, and the rooms it broadcast
(each broadcast fans a RoomUpdate out to that room's connections). -/
structure GatewayStep where
  state : AppState
  session : Session
  own_messages : List WsMessage
  broadcasts : List String
deriving DecidableEq, Repr

/-- api.rs, handle_websocket, the message dispatch: Join constructs a
non-host participant with a fresh id (the `fresh_pid` parameter),
adds it, and on success records the binding, registers the connection
and broadcasts; on failure sends an Error on this connection only.
Vote is handled only when both locals are set; Ping answers Pong; every
other inbound variant is ignored. -/
def handleMsg (s : AppState) (sess : Session) (fresh_pid : String) (msg : WsMessage) :
    GatewayStep :=
  match msg with
  | .join rid name =>
      let participant : Participant :=
        { id := fresh_pid, name := name, vote := none, is_host := false }
      let res := s.add_participant rid participant
      match res.1 with
      | some pid =>
          { state := res.2.register_connection pid rid
            session := { participant_id := some pid, room_id := some rid }
            own_messages := []
            broadcasts := [rid] }
      | none =>
          { state := res.2
            session := sess
            own_messages := [.error "Room not found"]
            broadcasts := [] }
  | .vote v =>
      match sess.participant_id, sess.room_id with
      | some pid, some rid =>
          { state := s.set_vote rid pid v
            session := sess
            own_messages := []
            broadcasts := [rid] }
      | _, _ => { state := s, session := sess, own_messages := [], broadcasts := [] }
  | .ping => { state := s, session := sess, own_messages := [.pong], broadcasts := [] }
  | _ => { state := s, session := sess, own_messages := [], broadcasts := [] }

/-- C9: an inbound Vote while the session is Unjoined (no successful Join
yet, so a bound participant or room is missing) leaves the store — every
room — untouched and enqueues nothing, neither on this connection nor as
a broadcast; once Joined, a Vote performs exactly set_vote on the bound
room and participant and broadcasts that room, and a successful Join is
what sets the binding. -/
theorem C9_vote_requires_join (s : AppState) (sess : Session) (fresh_pid : String)
    (v : Option String) :
    (sess.participant_id = none ∨ sess.room_id = none →
      handleMsg s sess fresh_pid (.vote v) =
        { state := s, session := sess, own_messages := [], broadcasts := [] }) ∧
      (∀ pid rid, sess.participant_id = some pid → sess.room_id = some rid →
        handleMsg s sess fresh_pid (.vote v) =
          { state := s.set_vote rid pid v, session := sess, own_messages := []
            broadcasts := [rid] } ∧
          lookupKey (handleMsg s sess fresh_pid (.vote v)).state.rooms rid =
            (lookupKey s.rooms rid).map (fun r => r.set_vote pid v) ∧
          ∀ k, k ≠ rid →
            lookupKey (handleMsg s sess fresh_pid (.vote v)).state.rooms k =
              lookupKey s.rooms k) ∧
      ∀ rid name room, lookupKey s.rooms rid = some room →
        (handleMsg s sess fresh_pid (.join rid name)).session =
          { participant_id := some fresh_pid, room_id := some rid } := by
  obtain ⟨sp, sr⟩ := sess
  refine ⟨?_, ?_, ?_⟩
  · intro h
    cases sp with
    | none => cases sr <;> rfl
    | some pid =>
        cases sr with
        | none => rfl
        | some rid => rcases h with h | h <;> cases h
  · intro pid rid hp hr
    cases hp
    cases hr
    refine ⟨rfl, ?_, ?_⟩
    · show lookupKey (s.set_vote rid pid v).rooms rid = _
      rw [AppState.set_vote, lookupKey_updateKey_self]
    · intro k hk
      show lookupKey (s.set_vote rid pid v).rooms k = _
      exact lookupKey_updateKey_ne s.rooms rid k
        (fun r => r.set_vote pid v) hk
  · intro rid name room hroom
    have hadd : s.add_participant rid
        { id := fresh_pid, name := name, vote := none, is_host := false } =
        (some fresh_pid,
          { s with
              rooms := updateKey s.rooms rid fun r =>
                r.add_participant
                  { id := fresh_pid, name := name, vote := none, is_host := false } }) := by
      rw [AppState.add_participant, hroom]
    simp only [handleMsg, hadd]

/-- The session before any Join. -/
def sessUnjoined : Session := { participant_id := none, room_id := none }

/-- A session bound to participant "p-a" in "room-1". -/
def sessJoined : Session := { participant_id := some "p-a", room_id := some "room-1" }

/-- C9 witness: on the concrete store a Vote in the Unjoined session is a
complete no-op, a Vote in a Joined session is set_vote plus a broadcast,
and a successful Join binds the session. -/
theorem C9_vote_requires_join_witness :
    handleMsg stateC2 sessUnjoined "fresh" (.vote (some "5")) =
        { state := stateC2, session := sessUnjoined, own_messages := [], broadcasts := [] } ∧
      handleMsg stateC2 sessJoined "fresh" (.vote (some "5")) =
        { state := stateC2.set_vote "room-1" "p-a" (some "5"), session := sessJoined
          own_messages := [], broadcasts := ["room-1"] } ∧
      (handleMsg stateC2 sessUnjoined "fresh" (.join "room-1" "Ada")).session =
        { participant_id := some "fresh", room_id := some "room-1" } :=
  ⟨(C9_vote_requires_join stateC2 sessUnjoined "fresh" (some "5")).1 (Or.inl rfl),
   ((C9_vote_requires_join stateC2 sessJoined "fresh" (some "5")).2.1 "p-a" "room-1"
      rfl rfl).1,
   (C9_vote_requires_join stateC2 sessUnjoined "fresh" (some "5")).2.2 "room-1" "Ada"
      roomC2 rfl⟩

/-! ## C3: uniqueness after a sequence of create_room calls

Each create_room call draws a fresh random UUID for the room id and a
fresh random UUID whose 64-bit hash feeds the invite code; both enter
the model as oracle inputs.  Nothing in the code checks a generated
invite code against the existing ones, so a hash collision between two
calls stores two rooms with the same invite code: unconditional
pairwise distinctness of invite codes fails (the counterexample below),
and distinctness holds only for call sequences whose drawn ids and
generated codes happen to be pairwise distinct. -/

/-- One create_room call with its oracle values: the fresh UUID chosen
for the id, the 64-bit hash drawn for the invite code, the requested
name and the creation timestamp. -/
structure CreateCall where
  id : String
  hash : Nat
  name : String
  now : Nat
deriving DecidableEq, Repr

/-- A sequence of create_room calls against the store. -/
def runCreates (s : AppState) : List CreateCall → AppState
  | [] => s
  | c :: cs => runCreates (s.create_room c.id c.hash c.name c.now).2 cs

/-- The store's room/invite-code consistency invariant: no repeated keys
in either index, every stored room sits under its own id, its invite
code is bound to its id, and every invite binding points back to a room
carrying that code. -/
def StoreInv (s : AppState) : Prop :=
  (s.rooms.map Prod.fst).Nodup ∧
    (∀ p ∈ s.rooms, p.2.id = p.1) ∧
    (s.invite_codes.map Prod.fst).Nodup ∧
    (∀ p ∈ s.rooms, lookupKey s.invite_codes p.2.invite_code = some p.1) ∧
    ∀ q ∈ s.invite_codes, ∃ room, lookupKey s.rooms q.2 = some room ∧ room.invite_code = q.1

/-- create_room with a fresh id and fresh invite code preserves the
store invariant. -/
theorem StoreInv_create_room (s : AppState) (c : CreateCall)
    (hs : StoreInv s)
    (hid : lookupKey s.rooms c.id = none)
    (hcode : lookupKey s.invite_codes (generate_invite_code c.hash) = none) :
    StoreInv (s.create_room c.id c.hash c.name c.now).2 := by
  obtain ⟨hnr, hpid, hni, hforward, hback⟩ := hs
  have hshape : (s.create_room c.id c.hash c.name c.now).2 =
      { s with
          rooms := insertKey s.rooms c.id (Room.new c.id c.hash c.name c.now)
          invite_codes :=
            insertKey s.invite_codes (generate_invite_code c.hash) c.id } := rfl
  rw [hshape, insertKey_of_lookupKey_eq_none _ hid, insertKey_of_lookupKey_eq_none _ hcode]
  have hidnot : c.id ∉ s.rooms.map Prod.fst := (lookupKey_eq_none_iff _ _).mp hid
  have hcodenot : generate_invite_code c.hash ∉ s.invite_codes.map Prod.fst :=
    (lookupKey_eq_none_iff _ _).mp hcode
  refine ⟨?_, ?_, ?_, ?_, ?_⟩
  · rw [List.map_cons, List.nodup_cons]
    exact ⟨hidnot, hnr⟩
  · intro p hp
    rcases List.mem_cons.mp hp with heq | hmem
    · rw [heq]
      rfl
    · exact hpid p hmem
  · rw [List.map_cons, List.nodup_cons]
    exact ⟨hcodenot, hni⟩
  · intro p hp
    rcases List.mem_cons.mp hp with heq | hmem
    · rw [heq]
      simp [lookupKey_cons, Room.new, generate_invite_code]
    · have hold := hforward p hmem
      have hne : ¬ generate_invite_code c.hash = p.2.invite_code := by
        intro he
        rw [← he, hcode] at hold
        cases hold
      rw [lookupKey_cons, if_neg hne]
      exact hold
  · intro q hq
    rcases List.mem_cons.mp hq with heq | hmem
    · refine ⟨Room.new c.id c.hash c.name c.now, ?_, ?_⟩
      · rw [heq]
        simp [lookupKey_cons]
      · rw [heq]
        rfl
    · obtain ⟨room, hlook, hcodeq⟩ := hback q hmem
      have hne : ¬ c.id = q.2 := by
        intro he
        rw [← he, hid] at hlook
        cases hlook
      exact ⟨room, by rw [lookupKey_cons, if_neg hne]; exact hlook, hcodeq⟩

/-- Folding a sequence of create_room calls with pairwise-fresh ids and
invite codes preserves the store invariant. -/
theorem StoreInv_runCreates (calls : List CreateCall) :
    ∀ s : AppState, StoreInv s →
      (∀ c ∈ calls, lookupKey s.rooms c.id = none) →
      (∀ c ∈ calls, lookupKey s.invite_codes (generate_invite_code c.hash) = none) →
      (calls.map CreateCall.id).Nodup →
      (calls.map fun c => generate_invite_code c.hash).Nodup →
      StoreInv (runCreates s calls) := by
  induction calls with
  | nil =>
      intro s hs _ _ _ _
      exact hs
  | cons c cs ih =>
      intro s hs hid hcode hnid hncode
      rw [List.map_cons, List.nodup_cons] at hnid hncode
      show StoreInv (runCreates (s.create_room c.id c.hash c.name c.now).2 cs)
      have hid0 := hid c (List.mem_cons_self _ _)
      have hcode0 := hcode c (List.mem_cons_self _ _)
      refine ih _ (StoreInv_create_room s c hs hid0 hcode0) ?_ ?_ hnid.2 hncode.2
      · intro c' hc'
        have hne : c'.id ≠ c.id := by
          intro he
          exact hnid.1 (he ▸ List.mem_map_of_mem CreateCall.id hc')
        have hstep : lookupKey (s.create_room c.id c.hash c.name c.now).2.rooms c'.id =
            lookupKey s.rooms c'.id :=
          lookupKey_insertKey_ne s.rooms c.id c'.id (Room.new c.id c.hash c.name c.now) hne
        rw [hstep]
        exact hid c' (List.mem_cons_of_mem _ hc')
      · intro c' hc'
        have hne : generate_invite_code c'.hash ≠ generate_invite_code c.hash := by
          have hmem : generate_invite_code c'.hash ∈
              cs.map fun x => generate_invite_code x.hash :=
            List.mem_map.mpr ⟨c', hc', rfl⟩
          intro he
          rw [he] at hmem
          exact hncode.1 hmem
        have hstep :
            lookupKey (s.create_room c.id c.hash c.name c.now).2.invite_codes
                (generate_invite_code c'.hash) =
              lookupKey s.invite_codes (generate_invite_code c'.hash) :=
          lookupKey_insertKey_ne s.invite_codes (generate_invite_code c.hash)
            (generate_invite_code c'.hash) c.id hne
        rw [hstep]
        exact hcode c' (List.mem_cons_of_mem _ hc')

/-- Bindings of a no-repeated-keys map with the same key are equal. -/
theorem eq_of_fst_eq_of_nodup {α : Type} {m : List (String × α)} {p q : String × α}
    (hnodup : (m.map Prod.fst).Nodup) (hp : p ∈ m) (hq : q ∈ m) (h : p.1 = q.1) : p = q := by
  have h1 : lookupKey m p.1 = some p.2 :=
    lookupKey_eq_of_mem_nodup hnodup (by rw [Prod.mk.eta]; exact hp)
  have h2 : lookupKey m q.1 = some q.2 :=
    lookupKey_eq_of_mem_nodup hnodup (by rw [Prod.mk.eta]; exact hq)
  rw [h, h2] at h1
  have hsnd := Option.some.inj h1
  cases p
  cases q
  cases h
  cases hsnd
  rfl

/-- Two create_room calls with distinct drawn ids but colliding hashes:
both rooms receive the invite code of hash 0. -/
def callsC3clash : List CreateCall :=
  [{ id := "room-a", hash := 0, name := "A", now := 0 },
   { id := "room-b", hash := 0, name := "B", now := 1 }]

/-- C3 counterexample: the claim's unconditional distinctness fails.
After two create_room calls whose drawn hashes collide, the store holds
two rooms (distinct ids) sharing one invite code, so the resulting
invite codes are not pairwise distinct — the collision the code never
checks for. -/
theorem C3_counterexample :
    ((runCreates AppState.empty callsC3clash).rooms.map fun p => p.2.id).Nodup ∧
      ¬ ((runCreates AppState.empty callsC3clash).rooms.map fun p => p.2.invite_code).Nodup := by
  decide

/-- C3 (amended): for every sequence of create_room calls whose drawn
room ids are pairwise distinct and whose generated invite codes are
pairwise distinct — which the code does not ensure, hash collisions
being its documented gap — the stored rooms carry pairwise-distinct ids
and pairwise-distinct invite codes, and every invite-code binding
resolves to exactly one room id, a room carrying precisely that code
and id. -/
theorem C3_create_room_uniqueness (calls : List CreateCall)
    (hids : (calls.map CreateCall.id).Nodup)
    (hcodes : (calls.map fun c => generate_invite_code c.hash).Nodup) :
    ((runCreates AppState.empty calls).rooms.map fun p => p.2.id).Nodup ∧
      ((runCreates AppState.empty calls).rooms.map fun p => p.2.invite_code).Nodup ∧
      ∀ code rid, lookupKey (runCreates AppState.empty calls).invite_codes code = some rid →
        ∃ room, lookupKey (runCreates AppState.empty calls).rooms rid = some room ∧
          room.invite_code = code ∧ room.id = rid := by
  have hempty : StoreInv AppState.empty := by
    refine ⟨List.nodup_nil, ?_, List.nodup_nil, ?_, ?_⟩ <;> intro p hp <;> cases hp
  have hinv : StoreInv (runCreates AppState.empty calls) :=
    StoreInv_runCreates calls AppState.empty hempty (fun _ _ => rfl) (fun _ _ => rfl)
      hids hcodes
  obtain ⟨hnr, hpid, hni, hforward, hback⟩ := hinv
  refine ⟨?_, ?_, ?_⟩
  · rw [List.map_congr_left fun p hp => hpid p hp]
    exact hnr
  · refine List.Nodup.map_on ?_ (List.Nodup.of_map Prod.fst hnr)
    intro p hp q hq hcode
    exact eq_of_fst_eq_of_nodup hnr hp hq (by
      have h1 := hforward p hp
      have h2 := hforward q hq
      rw [hcode, h2] at h1
      exact (Option.some.inj h1).symm)
  · intro code rid hlook
    obtain ⟨room, hr, hc⟩ := hback (code, rid) (mem_of_lookupKey_eq_some hlook)
    exact ⟨room, hr, hc, hpid (rid, room) (mem_of_lookupKey_eq_some hr)⟩

/-- Two concrete create_room calls with distinct ids and hashes. -/
def callsC3 : List CreateCall :=
  [{ id := "room-a", hash := 0, name := "A", now := 0 },
   { id := "room-b", hash := 1, name := "B", now := 1 }]

/-- C3 (amended) witness: running the two collision-free concrete calls
yields pairwise-distinct room ids and invite codes, and the second
room's invite code resolves to it. -/
theorem C3_create_room_uniqueness_witness :
    ((runCreates AppState.empty callsC3).rooms.map fun p => p.2.id).Nodup ∧
      ((runCreates AppState.empty callsC3).rooms.map fun p => p.2.invite_code).Nodup ∧
      ∃ room, lookupKey (runCreates AppState.empty callsC3).rooms "room-b" = some room ∧
        room.invite_code = generate_invite_code 1 ∧ room.id = "room-b" := by
  have h := C3_create_room_uniqueness callsC3 (by decide) (by decide)
  exact ⟨h.1, h.2.1, h.2.2 (generate_invite_code 1) "room-b" (by decide)⟩

end ScrumPoker
